import Mathlib

/-!
Verification of the S3IO low-level byte storage engine
(`datacube/drivers/s3/storage/s3aio/s3io.py`) against its specification.

The Python source is shallowly embedded: byte strings are `List Nat`,
the local-filesystem emulation is an explicit `FS` record of directory and
file paths, remote S3 calls are abstracted by outcome functions supplied as
parameters, and each method of `S3IO` becomes an executable Lean function
translated from its body.
-/

namespace S3IO

/-- Bytes are modelled as lists of byte values. -/
abbrev Bytes := List Nat

/-- One multipart part descriptor, as built by `work_put`:
`dict(PartNumber=block_number + 1, ETag=response['ETag'])`. -/
structure Part where
  PartNumber : Nat
  ETag : String
deriving DecidableEq, Repr

/-! ## Multipart chunking

Both `put_bytes_mpu` (sequential loop, s3io.py lines 340-346) and
`put_bytes_mpu_mp` (chunk-building loop, lines 395-400) compute the same
chunk ranges: `num_blocks = int(np.ceil(nbytes / float(block_size)))`,
and for block `i`: `start = i * block_size`, `end = (i+1) * block_size`
clipped by `if end > nbytes: end = nbytes`.  `np.ceil` on the exact
rational `nbytes / block_size` is the ceiling, i.e. `(N + B - 1) / B`
in natural-number division. -/

/-- Source: `num_blocks = int(np.ceil(nbytes / float(block_size)))`. -/
def numBlocks (nbytes B : Nat) : Nat := (nbytes + B - 1) / B

/-- The half-open byte ranges of the chunks produced by the loops of
`put_bytes_mpu` and `put_bytes_mpu_mp` (identical in both): block `i`
covers `[i*B, min ((i+1)*B) N)`. -/
def chunkRanges (nbytes B : Nat) : List (Nat × Nat) :=
  (List.range (numBlocks nbytes B)).map (fun i => (i * B, min ((i + 1) * B) nbytes))

/-- The tiling property claimed of multipart chunking: exactly `ceil(N/B)`
parts; part `i` covers `[i*B, min((i+1)*B, N))`; the ranges cover `[0,N)`
with no gaps and no overlaps; every part (in particular the final one) has
length at most `B`. -/
def ChunkTiling (N B : Nat) : Prop :=
  (chunkRanges N B).length = (N + B - 1) / B
  ∧ (∀ i, ∀ h : i < (chunkRanges N B).length,
      (chunkRanges N B)[i] = (i * B, min ((i + 1) * B) N))
  ∧ (∀ x, x < N ↔ ∃ i, i < (chunkRanges N B).length ∧ i * B ≤ x ∧ x < min ((i + 1) * B) N)
  ∧ (∀ i j x, i < (chunkRanges N B).length → j < (chunkRanges N B).length →
      i * B ≤ x → x < min ((i + 1) * B) N → j * B ≤ x → x < min ((j + 1) * B) N → i = j)
  ∧ (∀ i, i < (chunkRanges N B).length → min ((i + 1) * B) N - i * B ≤ B)

theorem chunkRanges_length (N B : Nat) :
    (chunkRanges N B).length = numBlocks N B := by
  simp [chunkRanges]

theorem lt_numBlocks_of_lt {N B x : Nat} (hB : 0 < B) (hx : x < N) :
    x / B < numBlocks N B := by
  have h1 : x ≤ N - 1 := Nat.le_sub_one_of_lt hx
  have h2 : x / B ≤ (N - 1) / B := Nat.div_le_div_right h1
  have h3 : N + B - 1 = (N - 1) + B := by omega
  have h4 : numBlocks N B = (N - 1) / B + 1 := by
    unfold numBlocks
    rw [h3, Nat.add_div_right _ hB]
  omega

theorem div_mem_range {N B x : Nat} (hB : 0 < B) (hx : x < N) :
    x / B * B ≤ x ∧ x < min ((x / B + 1) * B) N := by
  refine ⟨Nat.div_mul_le_self x B, ?_⟩
  have h1 : x / B < x / B + 1 := Nat.lt_succ_self _
  have h2 : x < (x / B + 1) * B := (Nat.div_lt_iff_lt_mul hB).mp h1
  exact lt_min h2 hx

theorem eq_div_of_range {N B i x : Nat} (hB : 0 < B)
    (h1 : i * B ≤ x) (h2 : x < min ((i + 1) * B) N) : i = x / B := by
  have hlo : i ≤ x / B := (Nat.le_div_iff_mul_le hB).mpr h1
  have hhi : x / B < i + 1 :=
    (Nat.div_lt_iff_lt_mul hB).mpr (lt_of_lt_of_le h2 (min_le_left _ _))
  omega

/-- C1: For every payload of `N ≥ 0` bytes and every block size `B > 0`,
multipart chunking (both the sequential and the parallel uploader compute
these same ranges) produces exactly `ceil(N/B)` parts; part `i` covers
`[i*B, min((i+1)*B, N))`; the ranges tile `[0,N)` with no gaps and no
overlaps; and every part, the final one included, has length `≤ B`. -/
theorem multipart_chunking_tiles (N B : Nat) (hB : 0 < B) : ChunkTiling N B := by
  refine ⟨by simp [chunkRanges, numBlocks], ?_, ?_, ?_, ?_⟩
  · intro i h
    simp [chunkRanges]
  · intro x
    constructor
    · intro hx
      refine ⟨x / B, ?_, (div_mem_range hB hx).1, (div_mem_range hB hx).2⟩
      rw [chunkRanges_length]
      exact lt_numBlocks_of_lt hB hx
    · rintro ⟨i, _, _, h3⟩
      exact lt_of_lt_of_le h3 (min_le_right _ _)
  · intro i j x _ _ hi1 hi2 hj1 hj2
    rw [eq_div_of_range hB hi1 hi2, eq_div_of_range hB hj1 hj2]
  · intro i _
    have h1 : min ((i + 1) * B) N ≤ (i + 1) * B := min_le_left _ _
    have h2 : (i + 1) * B = i * B + B := by ring
    omega

/-- Witness for C1 at `N = 5`, `B = 2`. -/
theorem multipart_chunking_tiles_witness : 0 < 2 ∧ ChunkTiling 5 2 :=
  ⟨by decide, multipart_chunking_tiles 5 2 (by decide)⟩

/-! ## Parallel multipart upload: part ordering (`put_bytes_mpu_mp`)

`work_put` (s3io.py lines 375-382) uploads one part and returns
`dict(PartNumber=block_number + 1, ETag=response['ETag'])`.  The parts are
dispatched with `self.pool.map(work_put, blocks, data_chunks, ...)` where
`blocks = range(num_blocks)`.  `pathos.multiprocessing.ProcessPool.map`
lets the workers finish in an arbitrary order but returns the result list
positionally: entry `i` of the returned list is `work_put` applied to
input `i`.  We model the non-deterministic completion order as a list
`arrival` of block indices (the order in which workers finish) and the
positional collection performed by `map` explicitly. -/

/-- Task `work_put`: the part record returned for block `block_number`, with the
ETag the store reported for that part. -/
def work_put (block_number : Nat) (etag : String) : Part :=
  ⟨block_number + 1, etag⟩

/-- Positional collection done by `ProcessPool.map`: workers finish in the
order `arrival`, but result `i` of the returned list is the result whose
task index is `i`. -/
def poolMapArrivals (f : Nat → Part) (arrival : List Nat) (n : Nat) : List Part :=
  (List.range n).filterMap
    (fun i => ((arrival.map (fun j => (j, f j))).find? (fun p => p.1 == i)).map (fun p => p.2))

/-- The `parts_dict['Parts']` list that `put_bytes_mpu_mp` passes to
`complete_multipart_upload` (lines 402-414): the `pool.map` results
appended in order. -/
def put_bytes_mpu_mp_parts (nbytes B : Nat) (etagOf : Nat → String)
    (arrival : List Nat) : List Part :=
  poolMapArrivals (fun i => work_put i (etagOf i)) arrival (numBlocks nbytes B)

theorem find_pair_of_mem (f : Nat → Part) :
    ∀ (l : List Nat) (i : Nat), i ∈ l →
      (l.map (fun j => (j, f j))).find? (fun p => p.1 == i) = some (i, f i) := by
  intro l
  induction l with
  | nil => intro i h; cases h
  | cons j t ih =>
    intro i h
    by_cases hji : j = i
    · subst hji
      simp [List.find?]
    · have ht : i ∈ t := by
        cases h with
        | head => exact absurd rfl hji
        | tail _ h => exact h
      have hb : ((j, f j).1 == i) = false := by
        simp [hji]
      simp only [List.map_cons, List.find?_cons, hb]
      exact ih i ht

theorem filterMap_eq_map_of_some {α β : Type} (g : α → Option β) (f : α → β) :
    ∀ l : List α, (∀ a ∈ l, g a = some (f a)) → l.filterMap g = l.map f := by
  intro l
  induction l with
  | nil => intro _; rfl
  | cons a t ih =>
    intro h
    simp only [List.filterMap_cons, List.map_cons, h a (List.mem_cons_self a t)]
    rw [ih (fun b hb => h b (List.mem_cons_of_mem a hb))]

theorem poolMapArrivals_eq_map (f : Nat → Part) (n : Nat) (arrival : List Nat)
    (h : ∀ i, i < n → i ∈ arrival) :
    poolMapArrivals f arrival n = (List.range n).map f := by
  unfold poolMapArrivals
  apply filterMap_eq_map_of_some
  intro i hi
  rw [find_pair_of_mem f arrival i (h i (List.mem_range.mp hi))]
  rfl

/-- C2: In `put_bytes_mpu_mp`, for every payload and block size, after
all part-upload tasks return — in an arbitrary completion order `arrival`
that is a permutation of the block indices — the parts list presented to
`complete_multipart_upload` is sorted strictly ascending by `PartNumber`. -/
theorem mpu_mp_parts_sorted (nbytes B : Nat) (etagOf : Nat → String)
    (arrival : List Nat) (hB : 0 < B)
    (hperm : arrival.Perm (List.range (numBlocks nbytes B))) :
    List.Pairwise (fun p q => p.PartNumber < q.PartNumber)
      (put_bytes_mpu_mp_parts nbytes B etagOf arrival) := by
  have hmem : ∀ i, i < numBlocks nbytes B → i ∈ arrival := by
    intro i hi
    exact (hperm.mem_iff).mpr (List.mem_range.mpr hi)
  unfold put_bytes_mpu_mp_parts
  rw [poolMapArrivals_eq_map _ _ _ hmem]
  rw [List.pairwise_map]
  have : List.Pairwise (· < ·) (List.range (numBlocks nbytes B)) :=
    List.pairwise_lt_range _
  exact this.imp (fun h => by simpa [work_put] using Nat.succ_lt_succ h)

/-- Witness for C2 at `N = 5`, `B = 2` (3 blocks) with arrival order
`[2, 0, 1]`. -/
theorem mpu_mp_parts_sorted_witness :
    0 < 2 ∧ List.Perm [2, 0, 1] (List.range (numBlocks 5 2)) ∧
      List.Pairwise (fun p q => p.PartNumber < q.PartNumber)
        (put_bytes_mpu_mp_parts 5 2 (fun _ => "etag") [2, 0, 1]) :=
  ⟨by decide, by decide,
    mpu_mp_parts_sorted 5 2 (fun _ => "etag") [2, 0, 1] (by decide) (by decide)⟩

/-! ## Parallel multipart upload: failure path (`put_bytes_mpu_mp`)

Event-trace view of `put_bytes_mpu_mp` (lines 362-416).  The body is:
`create_multipart_upload`; build chunks; `pool.map(work_put, ...)`;
append results; `complete_multipart_upload`.  There is no `try`/`except`
around the `pool.map` call and no call to `abort_multipart_upload`
anywhere in the function (or the file), so when a part task raises, the
pool's fail-fast failure propagates to the caller directly.  `partResult`
gives each part task's outcome; parts after the first failing one may or
may not have run, which does not affect the absence of an abort event. -/

inductive S3Event where
  | createMPU
  | uploadPart (partNumber : Nat)
  | completeMPU (parts : List Part)
  | abortMPU
deriving DecidableEq, Repr

/-- The part-upload phase: runs the tasks for the given block indices,
fail-fast (the first raising task's error surfaces from `pool.map`). -/
def runParts (partResult : Nat → Except String String) :
    List Nat → List S3Event × Except String (List Part)
  | [] => ([], Except.ok [])
  | i :: rest =>
    match partResult i with
    | Except.error e => ([S3Event.uploadPart (i + 1)], Except.error e)
    | Except.ok tag =>
      let r := runParts partResult rest
      (S3Event.uploadPart (i + 1) :: r.1,
       r.2.map (fun ps => work_put i tag :: ps))

/-- Run of `put_bytes_mpu_mp` as an event trace: initiate, upload parts, then
either complete (all parts ok) or surface the pool failure — the source
contains no abort call. -/
def put_bytes_mpu_mp_run (nbytes B : Nat) (partResult : Nat → Except String String) :
    List S3Event × Except String (List Part) :=
  let r := runParts partResult (List.range (numBlocks nbytes B))
  match r.2 with
  | Except.error e => (S3Event.createMPU :: r.1, Except.error e)
  | Except.ok parts =>
      (S3Event.createMPU :: r.1 ++ [S3Event.completeMPU parts], Except.ok parts)

/-- C3, evaluated at the failing input: payload of 4 bytes, block
size 2 (two parts), part 1's upload raises: `put_bytes_mpu_mp` surfaces
the failure and its trace contains no `abortMPU` event — contradicting
the claim that an explicit abort is issued before the failure surfaces. -/
theorem mpu_mp_no_abort_on_failure :
    put_bytes_mpu_mp_run 4 2
        (fun i => if i == 0 then Except.error "part upload failed" else Except.ok "etag")
      = ([S3Event.createMPU, S3Event.uploadPart 1], Except.error "part upload failed")
    ∧ S3Event.abortMPU ∉
        (put_bytes_mpu_mp_run 4 2
          (fun i => if i == 0 then Except.error "part upload failed" else Except.ok "etag")).1 := by
  constructor
  · rfl
  · decide

/-! ## Whole-object transfer with bounded retry (`put_bytes`, `get_bytes`)

`put_bytes` (lines 281-297) and `get_bytes` (lines 494-517), S3 branch:
`for attempt in range(10): try: ...; return except ...: last_error = str(e);
continue` and after the loop
`raise RuntimeError(..., 'exceeded max retries', last_error)`.
The loop body contains no sleep of any kind.  `att i` is the outcome of
attempt number `i` against the store. -/

inductive RetryEvent where
  | attempt (i : Nat)
  | sleep (ms : Nat)
deriving DecidableEq, Repr

/-- The retry loop `for attempt in idxs: try ... except ...`, with the
trace of events it performs and its result; exhausting `idxs` raises
`('exceeded max retries', last_error)`. -/
def retryRun {α : Type} (att : Nat → Except String α) :
    List Nat → Option String → List RetryEvent × Except (String × Option String) α
  | [], lastErr => ([], Except.error ("exceeded max retries", lastErr))
  | i :: rest, lastErr =>
    match att i with
    | Except.ok a => ([RetryEvent.attempt i], Except.ok a)
    | Except.error e =>
      let r := retryRun att rest (some e)
      (RetryEvent.attempt i :: r.1, r.2)

/-- Method `put_bytes` on the S3 backend: `for attempt in range(10)`. -/
def put_bytes_s3 (att : Nat → Except String Unit) :
    List RetryEvent × Except (String × Option String) Unit :=
  retryRun att (List.range 10) none

/-- Method `get_bytes` on the S3 backend (`use_new=False` path): the same
ten-attempt loop, returning the object's bytes on success. -/
def get_bytes_s3 (att : Nat → Except String Bytes) :
    List RetryEvent × Except (String × Option String) Bytes :=
  retryRun att (List.range 10) none

theorem retryRun_cons_ok {α : Type} (att : Nat → Except String α) (i : Nat)
    (rest : List Nat) (lastErr : Option String) (a : α) (h : att i = Except.ok a) :
    retryRun att (i :: rest) lastErr = ([RetryEvent.attempt i], Except.ok a) := by
  simp [retryRun, h]

theorem retryRun_cons_error {α : Type} (att : Nat → Except String α) (i : Nat)
    (rest : List Nat) (lastErr : Option String) (e : String) (h : att i = Except.error e) :
    retryRun att (i :: rest) lastErr =
      (RetryEvent.attempt i :: (retryRun att rest (some e)).1,
       (retryRun att rest (some e)).2) := by
  simp [retryRun, h]

theorem retryRun_all_fail {α : Type} (att : Nat → Except String α) (e : Nat → String) :
    ∀ (idxs : List Nat) (lastErr : Option String), idxs ≠ [] →
      (∀ i ∈ idxs, att i = Except.error (e i)) →
      retryRun att idxs lastErr =
        (idxs.map RetryEvent.attempt,
         Except.error ("exceeded max retries", some (e (idxs.getLast?.getD 0)))) := by
  intro idxs
  induction idxs with
  | nil => intro _ h; exact absurd rfl h
  | cons i t ih =>
    intro lastErr _ hfail
    rw [retryRun_cons_error att i t lastErr (e i) (hfail i (List.mem_cons_self i t))]
    cases t with
    | nil => simp [retryRun]
    | cons j u =>
      rw [ih (some (e i)) (by simp)
        (fun b hb => hfail b (List.mem_cons_of_mem i hb))]
      simp

theorem retryRun_congr {α : Type} (att att' : Nat → Except String α) :
    ∀ (idxs : List Nat) (lastErr : Option String),
      (∀ i ∈ idxs, att i = att' i) →
      retryRun att idxs lastErr = retryRun att' idxs lastErr := by
  intro idxs
  induction idxs with
  | nil => intro _ _; rfl
  | cons i t ih =>
    intro lastErr h
    have hi : att i = att' i := h i (List.mem_cons_self i t)
    cases ha : att' i with
    | ok a =>
      rw [retryRun_cons_ok att i t lastErr a (hi.trans ha),
        retryRun_cons_ok att' i t lastErr a ha]
    | error e =>
      rw [retryRun_cons_error att i t lastErr e (hi.trans ha),
        retryRun_cons_error att' i t lastErr e ha,
        ih (some e) (fun b hb => h b (List.mem_cons_of_mem i hb))]

/-- C5: On the S3 backend, `put_bytes` tries the whole-object write in
a loop of exactly 10 attempts with no sleep between them: when every
attempt fails, the trace is exactly the ten attempt events (no backoff
event) and the raised error reports `exceeded max retries` carrying the
cause of the last (10th) failed attempt; moreover the loop never consults
any attempt beyond the first ten (no further internal retry). -/
theorem put_bytes_retry_cap (att att' : Nat → Except String Unit) (e : Nat → String)
    (hfail : ∀ i, i < 10 → att i = Except.error (e i))
    (hagree : ∀ i, i < 10 → att i = att' i) :
    put_bytes_s3 att =
      ((List.range 10).map RetryEvent.attempt,
       Except.error ("exceeded max retries", some (e 9)))
    ∧ put_bytes_s3 att = put_bytes_s3 att' := by
  constructor
  · have h := retryRun_all_fail att e (List.range 10) none (by decide)
      (fun i hi => hfail i (List.mem_range.mp hi))
    simpa [put_bytes_s3] using h
  · exact retryRun_congr att att' (List.range 10) none
      (fun i hi => hagree i (List.mem_range.mp hi))

/-- Witness for C5: every attempt times out with cause `"timeout"`. -/
theorem put_bytes_retry_cap_witness :
    put_bytes_s3 (fun _ => Except.error "timeout") =
      ((List.range 10).map RetryEvent.attempt,
       Except.error ("exceeded max retries", some "timeout")) :=
  (put_bytes_retry_cap (fun _ => Except.error "timeout")
    (fun _ => Except.error "timeout") (fun _ => "timeout")
    (fun _ _ => rfl) (fun _ _ => rfl)).1

/-! ## Local-disk emulation backend

The local backend stores objects as files under
`file_path / bucket / key`.  We model the filesystem as explicit lists of
absolute directory paths and of file paths with contents; a path is a list
of components below the filesystem root (the root itself is `[]`).  A key
may contain `/`, so keys are also modelled as component lists. -/

structure FS where
  dirs : List (List String)
  files : List (List String × Bytes)
deriving DecidableEq, Repr

/-- Check `os.path.isdir` / directory existence. -/
def dirExists (fs : FS) (p : List String) : Bool :=
  fs.dirs.any (fun d => d == p)

/-- Check `os.path.isfile` / `Path.is_file`. -/
def fileExists (fs : FS) (p : List String) : Bool :=
  fs.files.any (fun f => f.1 == p)

/-- Check `os.path.exists`: true for a directory or a file. -/
def pathExists (fs : FS) (p : List String) : Bool :=
  dirExists fs p || fileExists fs p

/-- Read `open(p).read()` for an existing file. -/
def fileContents (fs : FS) (p : List String) : Option Bytes :=
  (fs.files.find? (fun f => f.1 == p)).map (fun f => f.2)

/-- Operation `Path.unlink`: remove a file. -/
def unlink (fs : FS) (p : List String) : FS :=
  { fs with files := fs.files.filter (fun f => f.1 != p) }

/-- Operation `Path.rmdir`: remove a directory entry (callers only invoke it on an
existing, empty directory, as the source's loop guard ensures). -/
def rmdir (fs : FS) (p : List String) : FS :=
  { fs with dirs := fs.dirs.filter (fun d => d != p) }

/-- Test `list(p.iterdir()) != []`: does the directory `p` contain anything
(any dir or file strictly below it)? -/
def hasChild (fs : FS) (p : List String) : Bool :=
  fs.dirs.any (fun d => p.isPrefixOf d && d != p) ||
    fs.files.any (fun f => p.isPrefixOf f.1 && f.1 != p)

/-- All prefixes of a path, the path itself included. -/
def prefixesOf (p : List String) : List (List String) :=
  (List.range (p.length + 1)).map (fun i => p.take i)

/-- Operation `Path.mkdir(parents=True, exist_ok=True)`: create the directory and
every missing ancestor. -/
def mkdirParents (fs : FS) (p : List String) : FS :=
  { fs with dirs := fs.dirs ++ (prefixesOf p).filter (fun d => !fs.dirs.any (fun x => x == d)) }

/-- Overwrite-or-create a file (`open('wb').write(data)`). -/
def writeFile (fs : FS) (p : List String) (data : Bytes) : FS :=
  { fs with files := fs.files.filter (fun f => f.1 != p) ++ [(p, data)] }

/-- Method `put_bytes`, local branch (lines 298-302): make parent directories,
then write the whole object; the Python function returns `None`. -/
def put_bytes_local (fs : FS) (root : List String) (bucket : String)
    (key : List String) (data : Bytes) : FS :=
  let filepath := root ++ [bucket] ++ key
  writeFile (mkdirParents fs filepath.dropLast) filepath data

/-- Method `get_bytes`, local branch (lines 518-526): `None` when the bucket
directory or the file is absent, otherwise the file's bytes. -/
def get_bytes_local (fs : FS) (root : List String) (bucket : String)
    (key : List String) : Option Bytes :=
  let directory := root ++ [bucket]
  let fp := directory ++ key
  if !(pathExists fs directory && pathExists fs fp) then none
  else fileContents fs fp

/-- Method `get_byte_range`, local branch (lines 554-563): `None` when the bucket
directory or the file is absent, otherwise `seek(start); read(end - start)`,
i.e. the bytes `[start, min(end, size))`. -/
def get_byte_range_local (fs : FS) (root : List String) (bucket : String)
    (key : List String) (s3_start s3_end : Nat) : Option Bytes :=
  let directory := root ++ [bucket]
  let fp := directory ++ key
  if !(pathExists fs directory && pathExists fs fp) then none
  else (fileContents fs fp).map (fun d => (d.drop s3_start).take (s3_end - s3_start))

/-- The ascend-and-remove loop of `delete_objects` (lines 209-215):
`while not list(parent.iterdir()): parent.rmdir(); if parent.parent ==
parent: break; parent = parent.parent`.  The path is passed reversed so
that moving to the parent is structural recursion. -/
def removeEmptyParentsRev (fs : FS) (rev : List String) : FS :=
  if hasChild fs rev.reverse then fs
  else
    let fs' := rmdir fs rev.reverse
    match rev with
    | [] => fs'
    | _ :: t => removeEmptyParentsRev fs' t

def removeEmptyParents (fs : FS) (parent : List String) : FS :=
  removeEmptyParentsRev fs parent.reverse

/-- Method `delete_objects`, local branch (lines 200-216): for each key, if the
file exists unlink it, record it in the response, and remove now-empty
ancestor directories, ascending until a non-empty directory or the
filesystem root. -/
def delete_objects_local (fs : FS) (root : List String) (bucket : String)
    (keys : List (List String)) : FS × List (List String) :=
  keys.foldl
    (fun acc k =>
      let filepath := root ++ [bucket] ++ k
      if pathExists acc.1 filepath && fileExists acc.1 filepath then
        let fs1 := unlink acc.1 filepath
        (removeEmptyParents fs1 filepath.dropLast, acc.2 ++ [k])
      else acc)
    (fs, [])

/-- Method `list_objects`, local branch (lines 170-179): if the bucket directory
exists, every file under `bucket/prefix` (recursively), as a path relative
to the bucket directory; the `max_keys` parameter is not consulted. -/
def list_objects_local (fs : FS) (root : List String) (bucket : String)
    (pre : List String) (max_keys : Nat) : List (List String) :=
  let directory := root ++ [bucket]
  if pathExists fs directory then
    fs.files.filterMap (fun f =>
      if (directory ++ pre).isPrefixOf f.1 then some (f.1.drop directory.length) else none)
  else []

/-! ## C4: is a missing object a uniform NotFound on both backends?

On the local backend a missing object yields `None`.  On the S3 backend a
missing object makes every `o.get()` raise `ClientError` (`NoSuchKey`),
which the broad `except Exception` of `get_bytes` swallows and retries;
after the ten attempts the loop raises
`RuntimeError('s3io.get_bytes', 'exceeded max retries', last_error)`.
So the two backends are not uniform and the remote one raises. -/

/-- C4, counterexample: a concrete missing object: on the S3 backend
(every attempt fails with `NoSuchKey`) `get_bytes` raises
`exceeded max retries` instead of returning a NotFound value, while the
local backend (empty filesystem) returns `none` — refuting both the
"never raises" and the "uniform across backends" parts of the claim. -/
theorem get_bytes_missing_not_uniform :
    (get_bytes_s3 (fun _ => Except.error "NoSuchKey")).2 =
      Except.error ("exceeded max retries", some "NoSuchKey")
    ∧ get_bytes_local ⟨[[]], []⟩ ["r"] "b" ["k"] = none := by
  constructor
  · rfl
  · rfl

/-- C4, amended: only the local backend returns a single not-found
value: `get_bytes` on the local backend returns `none` for a missing
object (never raising), while on the S3 backend a missing object fails
every attempt and `get_bytes` raises `exceeded max retries` carrying the
missing-object cause, so callers do need to branch on the backend. -/
theorem get_bytes_missing_amended (fs : FS) (root : List String) (bucket : String)
    (key : List String) (att : Nat → Except String Bytes)
    (hmiss_local : pathExists fs (root ++ [bucket] ++ key) = false)
    (hmiss_s3 : ∀ i, i < 10 → att i = Except.error "NoSuchKey") :
    get_bytes_local fs root bucket key = none
    ∧ (get_bytes_s3 att).2 = Except.error ("exceeded max retries", some "NoSuchKey") := by
  constructor
  · have hfp : pathExists fs (root ++ bucket :: key) = false := by
      simpa using hmiss_local
    unfold get_bytes_local
    simp only [List.append_assoc, List.singleton_append]
    rw [hfp]
    simp
  · have h := retryRun_all_fail att (fun _ => "NoSuchKey") (List.range 10) none
      (by decide) (fun i hi => hmiss_s3 i (List.mem_range.mp hi))
    rw [get_bytes_s3, h]

/-- Witness for the amended C4: empty filesystem, all attempts 404. -/
theorem get_bytes_missing_amended_witness :
    get_bytes_local ⟨[[]], []⟩ ["r"] "b" ["k"] = none
    ∧ (get_bytes_s3 (fun _ => Except.error "NoSuchKey")).2 =
        Except.error ("exceeded max retries", some "NoSuchKey") :=
  get_bytes_missing_amended ⟨[[]], []⟩ ["r"] "b" ["k"]
    (fun _ => Except.error "NoSuchKey") (by decide) (fun _ _ => rfl)

/-! ## C7: does the ascent stop at the bucket root?

The source's loop ascends while directories are empty and only stops at a
non-empty directory or the filesystem root `/` (`parent.parent == parent`)
— it never compares against the bucket root, despite the adjacent comment
"mimicking S3 behaviour" (an S3 bucket survives losing its last object). -/

/-- C7, evaluated at the failing input: filesystem root `[]`,
`file_path = ["r"]`, bucket `b` containing the single object `d/f`.
Deleting `d/f` deletes the file, then removes `r/b/d`, then the bucket
root `r/b` itself, then `r`, then the filesystem root entry — so the
bucket root is removed, contradicting the claim that the ascent stops
below it (the deleted-keys response is correct). -/
theorem delete_objects_removes_bucket_root :
    (delete_objects_local
        ⟨[[], ["r"], ["r", "b"], ["r", "b", "d"]], [(["r", "b", "d", "f"], [1])]⟩
        ["r"] "b" [["d", "f"]]).1.dirs = []
    ∧ (delete_objects_local
        ⟨[[], ["r"], ["r", "b"], ["r", "b", "d"]], [(["r", "b", "d", "f"], [1])]⟩
        ["r"] "b" [["d", "f"]]).2 = [["d", "f"]] := by
  constructor
  · rfl
  · rfl

/-! ## C8: does the local listing truncate at `max_keys`?

The local branch of `list_objects` never reads `max_keys`: it returns
every file under the prefix, however many there are, while the S3 branch
passes `MaxKeys=max_keys` to the store. -/

/-- C8, evaluated at the failing input: a bucket holding three
objects listed with `max_keys = 2` returns all three keys — the local
branch ignores `max_keys`, contradicting the claimed truncation
contract. -/
theorem list_objects_ignores_max_keys :
    list_objects_local
        ⟨[[], ["r"], ["r", "b"]],
         [(["r", "b", "a"], [1]), (["r", "b", "c"], [2]), (["r", "b", "d"], [3])]⟩
        ["r"] "b" [] 2
      = [["a"], ["c"], ["d"]]
    ∧ ¬ (list_objects_local
        ⟨[[], ["r"], ["r", "b"]],
         [(["r", "b", "a"], [1]), (["r", "b", "c"], [2]), (["r", "b", "d"], [3])]⟩
        ["r"] "b" [] 2).length ≤ 2 := by
  constructor
  · rfl
  · decide

/-! ## C9: response shape of `put_bytes_mpu` in emulation mode

`put_bytes_mpu` (line 327-328) in local mode returns
`self.put_bytes(...)`, and the local branch of `put_bytes` writes the
file and falls off the end — i.e. returns Python `None`, not a
completion-shaped response. -/

/-- The value `put_bytes_mpu` hands back to its caller. -/
inductive MPUReturn where
  /-- The `complete_multipart_upload` response of the S3 branch, carrying
  the parts presented to completion. -/
  | response (parts : List Part)
  /-- Python `None` — the return value of `put_bytes` on the local branch. -/
  | pyNone
deriving DecidableEq, Repr

/-- Method `put_bytes_mpu` (lines 315-360): local branch delegates to
`put_bytes` (whole-object write, returns `None`); S3 branch uploads the
chunks sequentially and returns the completion response. -/
def put_bytes_mpu_model (enable_s3 : Bool) (fs : FS) (root : List String)
    (bucket : String) (key : List String) (data : Bytes) (B : Nat)
    (etagOf : Nat → String) : FS × MPUReturn :=
  if !enable_s3 then
    (put_bytes_local fs root bucket key data, MPUReturn.pyNone)
  else
    (fs, MPUReturn.response
      ((List.range (numBlocks data.length B)).map (fun i => work_put i (etagOf i))))

/-- C9, evaluated at the failing input: emulation mode
(`enable_s3 = False`), two-byte payload: `put_bytes_mpu` does fall back to
a single whole-object write (the file appears with the payload), but it
answers Python `None` — not a response shaped like the remote multipart
completion response — contradicting the same-shape claim. -/
theorem put_bytes_mpu_local_returns_none :
    (put_bytes_mpu_model false ⟨[[]], []⟩ ["r"] "b" ["k"] [7, 8] 1
        (fun _ => "etag")).2 = MPUReturn.pyNone
    ∧ fileContents
        (put_bytes_mpu_model false ⟨[[]], []⟩ ["r"] "b" ["k"] [7, 8] 1
          (fun _ => "etag")).1 ["r", "b", "k"] = some [7, 8]
    ∧ (put_bytes_mpu_model true ⟨[[]], []⟩ ["r"] "b" ["k"] [7, 8] 1
        (fun _ => "etag")).2
      = MPUReturn.response [⟨1, "etag"⟩, ⟨2, "etag"⟩] := by
  refine ⟨rfl, rfl, rfl⟩

/-! ## Ranged GET (`get_byte_range`, `get_byte_range_mp`), S3 branch

`get_byte_range` (lines 542-553) issues one ranged GET
(`Range='bytes=start-(end-1)'`); the store clips the range at the object
size and answers a `ClientError` for an unsatisfiable or malformed range
(start at or past the object end, or an empty range), which the `except
botocore.exceptions.ClientError: break` turns into a `None` return. -/

/-- Data-level semantics of the single ranged GET against an object of
content `obj`: the bytes `[s, min(e, len))`, or `none` when the store
answers a `ClientError`. -/
def get_byte_range_s3 (obj : Bytes) (s e : Nat) : Option Bytes :=
  if s < obj.length && s < e then some ((obj.drop s).take (e - s)) else none

/-- One `work_get` task of `get_byte_range_mp` (lines 581-589) applied to
the staging buffer: the task's range is `start = block_number*B`,
`end = min((block_number+1)*B, s3_max_size)` — absolute offsets into the
object, not shifted by the requested `s3_start` — and the result is
written with `shared_array[start:end] = d`.  NumPy clips the target slice
at the buffer length and raises `ValueError` when the assigned data's
length differs from the slice's; assigning `None` raises `TypeError`. -/
def work_get_model (obj : Bytes) (B : Nat) (buf : Bytes) (block_number : Nat) :
    Except String Bytes :=
  let start := block_number * B
  let «end» := min ((block_number + 1) * B) obj.length
  match get_byte_range_s3 obj start «end» with
  | none => Except.error "TypeError: NoneType"
  | some d =>
    let lo := min start buf.length
    let hi := min «end» buf.length
    if d.length = hi - lo then
      Except.ok (buf.take lo ++ d ++ buf.drop (lo + d.length))
    else Except.error "ValueError: could not broadcast"

/-- Method `get_byte_range_mp`, S3 branch (lines 591-609): a staging buffer of
`s3_end - s3_start` zero bytes, `ceil((s3_end - s3_start)/B)` tasks run
over it, and the assembled buffer is returned. -/
def get_byte_range_mp_s3 (obj : Bytes) (s3_start s3_end B : Nat) : Except String Bytes :=
  let size := s3_end - s3_start
  (List.range (numBlocks size B)).foldl
    (fun acc i => acc.bind (fun buf => work_get_model obj B buf i))
    (Except.ok (List.replicate size 0))

/-- C6, evaluated at the failing input: object `[10,11,12,13]`,
requested range `[2,4)`, block size 2: `get_byte_range_mp` computes its
task ranges from absolute offset 0 (ignoring `s3_start`) and returns the
object's first two bytes `[10,11]`, while the `[2,4)` slice of the bytes
`get_bytes` returns is `[12,13]`.  And for `s3_start = 0`, `s3_end = 5`,
block size 2 on a 10-byte object, the last task's absolute range `[4,6)`
overruns the 5-byte staging buffer and the write raises a broadcast
`ValueError` instead of returning the slice. -/
theorem get_byte_range_mp_wrong_slice :
    get_byte_range_mp_s3 [10, 11, 12, 13] 2 4 2 = Except.ok [10, 11]
    ∧ (get_bytes_s3 (fun _ => Except.ok [10, 11, 12, 13])).2 =
        Except.ok [10, 11, 12, 13]
    ∧ (([10, 11, 12, 13].drop 2).take (4 - 2) = [12, 13] ∧ [10, 11] ≠ [12, 13])
    ∧ get_byte_range_mp_s3 [0, 1, 2, 3, 4, 5, 6, 7, 8, 9] 0 5 2 =
        Except.error "ValueError: could not broadcast" := by
  refine ⟨rfl, rfl, ⟨rfl, by decide⟩, rfl⟩

/-! ## C10: single-attempt ranged GET, S3 branch

The `while True:` loop of `get_byte_range` (lines 543-553) cannot run its
body twice: the `try` either returns the data, or a `ClientError` breaks
out of the loop (falling through to `return None`), or any other
exception propagates uncaught; the trailing `break` is unreachable. -/

/-- Possible outcomes of one ranged GET request against the store. -/
inductive RangeGetOutcome where
  | ok (d : Bytes)
  | clientError (code : Nat)
  | otherError (msg : String)
deriving DecidableEq, Repr

/-- Control-flow model of `get_byte_range`, S3 branch: `request i` is the
outcome the store would give the `i`-th request; the second component
lists the indices of the requests actually issued.  The single loop
iteration issues request 0 and exits on every path. -/
def get_byte_range_s3_run (request : Nat → RangeGetOutcome) :
    Except String (Option Bytes) × List Nat :=
  match request 0 with
  | RangeGetOutcome.ok d => (Except.ok (some d), [0])
  | RangeGetOutcome.clientError _ => (Except.ok none, [0])
  | RangeGetOutcome.otherError m => (Except.error m, [0])

/-- C10: On the S3 backend `get_byte_range` makes at most one request,
and when that single ranged GET fails with a client error it returns
`None` — no exception, no retry — which is exactly the observable the
local backend produces for a missing object, so the two cases are
indistinguishable to the caller. -/
theorem get_byte_range_single_attempt (request : Nat → RangeGetOutcome)
    (fs : FS) (root : List String) (bucket : String) (key : List String)
    (s3_start s3_end : Nat)
    (hmiss : pathExists fs (root ++ [bucket] ++ key) = false) :
    (get_byte_range_s3_run request).2.length ≤ 1
    ∧ (∀ c, request 0 = RangeGetOutcome.clientError c →
        (get_byte_range_s3_run request).1 = Except.ok none)
    ∧ (∀ d, request 0 = RangeGetOutcome.ok d →
        (get_byte_range_s3_run request).1 = Except.ok (some d))
    ∧ get_byte_range_local fs root bucket key s3_start s3_end = none := by
  refine ⟨?_, ?_, ?_, ?_⟩
  · unfold get_byte_range_s3_run
    cases request 0 <;> simp
  · intro c hc
    unfold get_byte_range_s3_run
    rw [hc]
  · intro d hd
    unfold get_byte_range_s3_run
    rw [hd]
  · have hfp : pathExists fs (root ++ bucket :: key) = false := by
      simpa using hmiss
    unfold get_byte_range_local
    simp only [List.append_assoc, List.singleton_append]
    rw [hfp]
    simp

/-- Witness for C10: the request answers `ClientError 404`, the local
filesystem is empty. -/
theorem get_byte_range_single_attempt_witness :
    (get_byte_range_s3_run (fun _ => RangeGetOutcome.clientError 404)).1 = Except.ok none
    ∧ get_byte_range_local ⟨[[]], []⟩ ["r"] "b" ["k"] 0 4 = none :=
  ⟨(get_byte_range_single_attempt (fun _ => RangeGetOutcome.clientError 404)
      ⟨[[]], []⟩ ["r"] "b" ["k"] 0 4 (by decide)).2.1 404 rfl,
   (get_byte_range_single_attempt (fun _ => RangeGetOutcome.clientError 404)
      ⟨[[]], []⟩ ["r"] "b" ["k"] 0 4 (by decide)).2.2.2⟩

end S3IO
